import Mathlib

/-!
# Producer / consumer bounded job queue

A shallow embedding of `src/main.cc`: the job-ID scan `getJobId`, the two
critical regions of `producer` and `consumer`, the semaphore protocol that
surrounds them, and the producer loop.

* `std::deque<pair<int,int>>` is a `List (Int × Int)`, front of the deque =
  head of the list; `push_back` appends at the end, `pop_front` drops the head.
* `int` is `Int`.  The only arithmetic on job IDs is `id++` inside `getJobId`,
  and `getJobId_le_length` shows the result never exceeds `length + 1`, so no
  machine overflow is involved for any deque that fits in memory.
-/

namespace ProducerConsumer

/-- The element type of the job queue, `typedef pair<int, int> queue_element`:
`first` is the job id, `second` the duration. -/
abbrev queue_element := Int × Int

/-- One iteration of the range-for in `getJobId` (main.cc 270-276):
`if (id == job.first) id++`. -/
def getJobIdStep (id : Int) (job : queue_element) : Int :=
  if id = job.1 then id + 1 else id

/-- The loop of `getJobId`, started from an arbitrary `id`. -/
def getJobIdFrom (id : Int) (buffer : List queue_element) : Int :=
  buffer.foldl getJobIdStep id

/-- The function `getJobId` (main.cc 266-279): `id = 1`, one pass over the deque from front
to back, `return id`. -/
def getJobId (buffer : List queue_element) : Int :=
  getJobIdFrom 1 buffer

/-- The job IDs present in the queue, front to back. -/
def jobIds (buffer : List queue_element) : List Int :=
  buffer.map Prod.fst

/-- Specification wording, "the smallest positive integer not currently assigned to
any job present in the queue". -/
def IsSmallestUnusedId (buffer : List queue_element) (n : Int) : Prop :=
  0 < n ∧ n ∉ jobIds buffer ∧ ∀ m : Int, 0 < m → m ∉ jobIds buffer → n ≤ m

/-! ## The two critical regions -/

/-- The producer's critical region (main.cc 163-164):
`job_id = getJobId(buffer); buffer.push_back({job_id, job_duration});`.
There is no test of the queue length in it. -/
def producerInsert (buffer : List queue_element) (job_duration : Int) : List queue_element :=
  buffer ++ [(getJobId buffer, job_duration)]

/-- The consumer's critical region (main.cc 215-216):
`queue_element job = buffer.front(); buffer.pop_front();`, giving the job read and the
remaining deque.  Both calls have no defined behaviour on an empty `std::deque`, and the
code guards neither: the model has no result there (`none`). -/
def consumerRemove : List queue_element → Option (queue_element × List queue_element)
  | [] => none
  | job :: rest => some (job, rest)

/-! ## Semaphores -/

/-- The four semaphores of the set, by index (helper.h 22-25): the counts of
`MUTEX`, `EMPTY`, `SPACE` and `IDS`. -/
structure Semaphores where
  mutex : Nat
  empty : Nat
  space : Nat
  ids : Nat
  deriving DecidableEq, Repr

/-- The function `initSemaphores` (main.cc 239-263) on the path where `sem_create` and every
`sem_init` succeed: `MUTEX = 1`, `EMPTY = 0`, `SPACE = queue_size`, `IDS = 1`. -/
def initSemaphores (queue_size : Nat) : Semaphores :=
  { mutex := 1, empty := 0, space := queue_size, ids := 1 }

/-- Modelled from the spec: `sem_wait_timeout` is only declared in helper.h, its body is
not among the sources.  Spec 4.2: it "attempts to decrement the specified semaphore by
one" and on a timeout returns "without having modified the semaphore".  `some v` is the
acquired outcome with the new count `v`; `none` means the count is 0, the caller cannot
proceed (it blocks, and after the wait bound gets `-1`). -/
def sem_wait_timeout (count : Nat) : Option Nat :=
  if 0 < count then some (count - 1) else none

/-- Modelled from the spec: `sem_wait` is only declared in helper.h.  Spec 4.2: the same
decrement by one, blocking indefinitely while the count is 0 (`none`). -/
def sem_wait (count : Nat) : Option Nat :=
  if 0 < count then some (count - 1) else none

/-- Modelled from the spec: `sem_signal` is only declared in helper.h.  Spec 4.2:
"unconditionally increments the semaphore by one and never blocks". -/
def sem_signal (count : Nat) : Nat :=
  count + 1

/-! ## The protocol as a transition system

Any number of producer and consumer threads run the loop bodies of `producer`
(main.cc 140-177) and `consumer` (main.cc 202-235).  A state holds the shared deque, the
semaphore counts, and for each program point between two semaphore operations the number
of threads standing there.  One action is one source statement of one thread. -/

/-- The shared state together with the number of threads at each in-flight program point. -/
structure State where
  /-- the shared `deque <queue_element> buffer` -/
  buffer : List queue_element
  /-- the semaphore counts -/
  sem : Semaphores
  /-- producers past `sem_wait_timeout (sem_id, SPACE)` (155), before `sem_wait (MUTEX)` (162) -/
  prodReserved : Nat
  /-- producers past `sem_wait (sem_id, MUTEX)` (162), before `push_back` (164) -/
  prodCritical : Nat
  /-- producers past `push_back` (164), before `sem_signal (sem_id, MUTEX)` (170) -/
  prodInserted : Nat
  /-- producers past `sem_signal (sem_id, MUTEX)` (170), before `sem_signal (sem_id, EMPTY)` (173) -/
  prodSignalling : Nat
  /-- consumers past `sem_wait_timeout (sem_id, EMPTY)` (204), before `sem_wait (MUTEX)` (214) -/
  consReserved : Nat
  /-- consumers past `sem_wait (sem_id, MUTEX)` (214), before `front`/`pop_front` (215) -/
  consCritical : Nat
  /-- consumers past `pop_front` (216), before `sem_signal (sem_id, MUTEX)` (222) -/
  consRemoved : Nat
  /-- consumers past `sem_signal (sem_id, MUTEX)` (222), before `sem_signal (sem_id, SPACE)` (225) -/
  consSignalling : Nat
  deriving DecidableEq, Repr

/-- The state in which `main` starts the threads: empty deque (main.cc 60), semaphores as
set by `initSemaphores (queue_size)` (main.cc 63), no thread in flight. -/
def initState (queue_size : Nat) : State :=
  { buffer := [], sem := initSemaphores queue_size,
    prodReserved := 0, prodCritical := 0, prodInserted := 0, prodSignalling := 0,
    consReserved := 0, consCritical := 0, consRemoved := 0, consSignalling := 0 }

/-- One statement of one thread. -/
inductive Action where
  /-- The call `sem_wait_timeout (sem_id, SPACE)` returning 0 (main.cc 155) -/
  | producerWaitSpace
  /-- The call `sem_wait (sem_id, MUTEX)` in the producer (162) -/
  | producerLock
  /-- The calls of `getJobId` and `push_back`, with the duration drawn at line 145 (163-164) -/
  | producerInsert (job_duration : Int)
  /-- The call `sem_signal (sem_id, MUTEX)` in the producer (170) -/
  | producerUnlock
  /-- The call `sem_signal (sem_id, EMPTY)` (173) -/
  | producerSignalEmpty
  /-- The call `sem_wait_timeout (sem_id, EMPTY)` returning 0 (204) -/
  | consumerWaitEmpty
  /-- The call `sem_wait (sem_id, MUTEX)` in the consumer (214) -/
  | consumerLock
  /-- The calls `buffer.front ()` and `buffer.pop_front ()` (215-216) -/
  | consumerRemove
  /-- The call `sem_signal (sem_id, MUTEX)` in the consumer (222) -/
  | consumerUnlock
  /-- The call `sem_signal (sem_id, SPACE)` (225) -/
  | consumerSignalSpace
  /-- A thread leaving through `pthread_exit` (151, 158, 210): a timed-out wait has not
  changed its semaphore, so nothing shared changes -/
  | threadExit
  deriving DecidableEq, Repr

/-- The effect of one action; `none` when no thread can perform it in this state (no
thread stands at that program point, or the semaphore it waits on is 0), and for the
removal also when the deque is empty, where the source has no defined behaviour. -/
def step (s : State) : Action → Option State
  | .producerWaitSpace =>
    match sem_wait_timeout s.sem.space with
    | some v => some { s with sem := { s.sem with space := v },
                              prodReserved := s.prodReserved + 1 }
    | none => none
  | .producerLock =>
    if 0 < s.prodReserved then
      match sem_wait s.sem.mutex with
      | some v => some { s with sem := { s.sem with mutex := v },
                                prodReserved := s.prodReserved - 1,
                                prodCritical := s.prodCritical + 1 }
      | none => none
    else none
  | .producerInsert job_duration =>
    if 0 < s.prodCritical then
      some { s with buffer := producerInsert s.buffer job_duration,
                    prodCritical := s.prodCritical - 1,
                    prodInserted := s.prodInserted + 1 }
    else none
  | .producerUnlock =>
    if 0 < s.prodInserted then
      some { s with sem := { s.sem with mutex := sem_signal s.sem.mutex },
                    prodInserted := s.prodInserted - 1,
                    prodSignalling := s.prodSignalling + 1 }
    else none
  | .producerSignalEmpty =>
    if 0 < s.prodSignalling then
      some { s with sem := { s.sem with empty := sem_signal s.sem.empty },
                    prodSignalling := s.prodSignalling - 1 }
    else none
  | .consumerWaitEmpty =>
    match sem_wait_timeout s.sem.empty with
    | some v => some { s with sem := { s.sem with empty := v },
                              consReserved := s.consReserved + 1 }
    | none => none
  | .consumerLock =>
    if 0 < s.consReserved then
      match sem_wait s.sem.mutex with
      | some v => some { s with sem := { s.sem with mutex := v },
                                consReserved := s.consReserved - 1,
                                consCritical := s.consCritical + 1 }
      | none => none
    else none
  | .consumerRemove =>
    if 0 < s.consCritical then
      match consumerRemove s.buffer with
      | some (_, rest) => some { s with buffer := rest,
                                        consCritical := s.consCritical - 1,
                                        consRemoved := s.consRemoved + 1 }
      | none => none
    else none
  | .consumerUnlock =>
    if 0 < s.consRemoved then
      some { s with sem := { s.sem with mutex := sem_signal s.sem.mutex },
                    consRemoved := s.consRemoved - 1,
                    consSignalling := s.consSignalling + 1 }
    else none
  | .consumerSignalSpace =>
    if 0 < s.consSignalling then
      some { s with sem := { s.sem with space := sem_signal s.sem.space },
                    consSignalling := s.consSignalling - 1 }
    else none
  | .threadExit => some s

/-- Run a schedule (a sequence of actions of any threads) from `s`. -/
def run (s : State) : List Action → Option State
  | [] => some s
  | a :: rest => (step s a).bind (fun s1 => run s1 rest)

/-- The states some schedule reaches from the initial state with capacity `queue_size`. -/
def Reachable (queue_size : Nat) (s : State) : Prop :=
  ∃ schedule : List Action, run (initState queue_size) schedule = some s

/-- No producer is between its `SPACE` decrement and its `EMPTY` signal, and no consumer
between its `EMPTY` decrement and its `SPACE` signal. -/
def Quiescent (s : State) : Prop :=
  s.prodReserved = 0 ∧ s.prodCritical = 0 ∧ s.prodInserted = 0 ∧ s.prodSignalling = 0 ∧
  s.consReserved = 0 ∧ s.consCritical = 0 ∧ s.consRemoved = 0 ∧ s.consSignalling = 0

instance (s : State) : Decidable (Quiescent s) := by
  unfold Quiescent
  infer_instance

/-- The accounting invariant of the protocol: every slot of the capacity is either a
free `SPACE` unit, reserved by a producer, occupied by a job, or being handed back by a
consumer; every job is either an `EMPTY` unit, reserved by a consumer, or not yet
announced by its producer; the mutex is free or held by exactly one thread. -/
def Inv (queue_size : Nat) (s : State) : Prop :=
  s.sem.space + s.prodReserved + s.prodCritical + s.buffer.length
      + s.consRemoved + s.consSignalling = queue_size ∧
  s.sem.empty + s.consReserved + s.consCritical + s.prodInserted + s.prodSignalling
      = s.buffer.length ∧
  s.sem.mutex + s.prodCritical + s.prodInserted + s.consCritical + s.consRemoved = 1

/-! ## Sequences of queue operations

Under `MUTEX` the critical regions of all threads are serialised, so what the deque sees
is a sequence of insertions and removals. -/

/-- One critical region executed on the shared deque. -/
inductive QueueOp where
  /-- A producer's critical region with the given `job_duration` (main.cc 163-164) -/
  | insert (job_duration : Int)
  /-- A consumer's critical region (main.cc 215-216) -/
  | remove
  deriving DecidableEq, Repr

/-- The deque together with the history of the jobs pushed and of the jobs read by the
consumers, both in the order in which it happened. -/
structure QueueRun where
  buffer : List queue_element
  inserted : List queue_element
  removed : List queue_element
  deriving DecidableEq, Repr

/-- Apply one critical region; `none` for a removal from an empty deque. -/
def applyOp (r : QueueRun) : QueueOp → Option QueueRun
  | .insert job_duration =>
    some { buffer := producerInsert r.buffer job_duration,
           inserted := r.inserted ++ [(getJobId r.buffer, job_duration)],
           removed := r.removed }
  | .remove =>
    match consumerRemove r.buffer with
    | some (job, rest) =>
      some { buffer := rest, inserted := r.inserted, removed := r.removed ++ [job] }
    | none => none

/-- Apply a sequence of critical regions. -/
def applyOps (r : QueueRun) : List QueueOp → Option QueueRun
  | [] => some r
  | op :: rest => (applyOp r op).bind (fun r1 => applyOps r1 rest)

/-- A run that starts with deque `q` and empty histories. -/
def startRun (q : List queue_element) : QueueRun :=
  { buffer := q, inserted := [], removed := [] }

/-- Apply a sequence of critical regions to a bare deque while its length is kept at
most `capacity`: an insertion needs a free slot, a removal a job. -/
def applyBounded (capacity : Nat) (buffer : List queue_element) :
    List QueueOp → Option (List queue_element)
  | [] => some buffer
  | .insert job_duration :: rest =>
    if buffer.length < capacity then
      applyBounded capacity (producerInsert buffer job_duration) rest
    else none
  | .remove :: rest =>
    match consumerRemove buffer with
    | some (_, tail) => applyBounded capacity tail rest
    | none => none

/-! ## The producer loop -/

/-- What a producer thread does that other threads can observe, in order. -/
inductive ProducerEvent where
  /-- The critical region: a job with this duration is pushed (main.cc 162-170) -/
  | insert (job_duration : Int)
  /-- The call `sem_signal (sem_id, EMPTY)` (main.cc 173) -/
  | signalEmpty
  /-- Exit with "No more jobs to produce." (main.cc 150-151) -/
  | noMoreJobs
  /-- Exit with "Timed out! No spaces in the queue." (main.cc 157-158) -/
  | timedOut
  deriving DecidableEq, Repr

/-- The `while(1)` loop of `producer` (main.cc 140-177).  `wait i` is the outcome of the
`sem_wait_timeout (sem_id, SPACE)` call of iteration `i` (`true`: acquired, `false`:
returned `-1`), `rand i` the value `generateRandomNumber(1, 10)` returns in iteration `i`.
`jobs_per_producer` and `job_duration` are the thread's locals.  The loop has no bound of
iterations in the source (a negative `jobs_per_producer` takes neither branch of the
`if` and never reaches 0), so the model runs on `fuel`: `none` when the fuel is used up
before the thread exits. -/
def producerLoop (wait : Nat → Bool) (rand : Nat → Int) :
    Nat → Nat → Int → Int → Option (List ProducerEvent)
  | 0, _, _, _ => none
  | fuel + 1, i, jobs_per_producer, job_duration =>
    if 0 < jobs_per_producer then
      if wait i then
        (producerLoop wait rand fuel (i + 1) (jobs_per_producer - 1) (rand i)).map
          (fun trace => .insert (rand i) :: .signalEmpty :: trace)
      else some [.timedOut]
    else if jobs_per_producer = 0 then
      some [.noMoreJobs]
    else
      if wait i then
        (producerLoop wait rand fuel (i + 1) jobs_per_producer job_duration).map
          (fun trace => .insert job_duration :: .signalEmpty :: trace)
      else some [.timedOut]

/-- Number of jobs inserted in a trace. -/
def insertCount (trace : List ProducerEvent) : Nat :=
  trace.countP (fun e => match e with | .insert _ => true | _ => false)

/-- Number of `EMPTY` signals in a trace. -/
def signalCount (trace : List ProducerEvent) : Nat :=
  trace.countP (fun e => match e with | .signalEmpty => true | _ => false)

/-! ## Facts about the scan -/

theorem getJobIdFrom_nil (id : Int) : getJobIdFrom id [] = id := rfl

theorem getJobIdFrom_cons (id : Int) (job : queue_element) (rest : List queue_element) :
    getJobIdFrom id (job :: rest) = getJobIdFrom (getJobIdStep id job) rest := rfl

theorem getJobIdFrom_ge (buffer : List queue_element) :
    ∀ id : Int, id ≤ getJobIdFrom id buffer := by
  induction buffer with
  | nil => intro id; simp [getJobIdFrom_nil]
  | cons job rest ih =>
    intro id
    rw [getJobIdFrom_cons]
    have h := ih (getJobIdStep id job)
    have hs : id ≤ getJobIdStep id job := by
      unfold getJobIdStep
      split <;> omega
    omega

theorem getJobIdFrom_le (buffer : List queue_element) :
    ∀ id : Int, getJobIdFrom id buffer ≤ id + buffer.length := by
  induction buffer with
  | nil => intro id; simp [getJobIdFrom_nil]
  | cons job rest ih =>
    intro id
    rw [getJobIdFrom_cons]
    have h := ih (getJobIdStep id job)
    have hs : getJobIdStep id job ≤ id + 1 := by
      unfold getJobIdStep
      split <;> omega
    simp only [List.length_cons, Nat.cast_succ]
    omega

/-- Every value the scan stepped over is the ID of a job in the queue. -/
theorem getJobIdFrom_skipped_mem (buffer : List queue_element) :
    ∀ id k : Int, id ≤ k → k < getJobIdFrom id buffer → k ∈ jobIds buffer := by
  induction buffer with
  | nil =>
    intro id k h1 h2
    simp [getJobIdFrom_nil] at h2
    omega
  | cons job rest ih =>
    intro id k h1 h2
    rw [getJobIdFrom_cons] at h2
    simp only [jobIds, List.map_cons, List.mem_cons]
    by_cases hk : k = job.1
    · exact Or.inl hk
    · right
      refine ih (getJobIdStep id job) k ?_ h2
      unfold getJobIdStep
      split
      · omega
      · exact h1

/-- On a queue whose IDs are non-decreasing, the scan's result is not an ID of the
queue, whatever value the scan starts from. -/
theorem getJobIdFrom_not_mem_of_sorted (buffer : List queue_element) :
    ∀ id : Int, List.Pairwise (fun a b => a ≤ b) (jobIds buffer) →
      getJobIdFrom id buffer ∉ jobIds buffer := by
  induction buffer with
  | nil => intro id _; simp [jobIds]
  | cons job rest ih =>
    intro id hs
    simp only [jobIds, List.map_cons, List.pairwise_cons] at hs
    obtain ⟨hhead, htail⟩ := hs
    rw [getJobIdFrom_cons]
    simp only [jobIds, List.map_cons, List.mem_cons, not_or]
    refine ⟨?_, ih _ htail⟩
    by_cases hid : id = job.1
    · have hge := getJobIdFrom_ge rest (getJobIdStep id job)
      simp only [getJobIdStep, hid, if_true] at hge ⊢
      omega
    · have hstep : getJobIdStep id job = id := by simp [getJobIdStep, hid]
      rw [hstep]
      intro heq
      have hge := getJobIdFrom_ge rest id
      rcases eq_or_lt_of_le hge with h | h
      · omega
      · have hm : id ∈ jobIds rest := getJobIdFrom_skipped_mem rest id id le_rfl h
        have := hhead id hm
        omega

theorem getJobId_le_length (buffer : List queue_element) :
    getJobId buffer ≤ buffer.length + 1 := by
  have := getJobIdFrom_le buffer 1
  unfold getJobId
  omega

theorem getJobId_pos (buffer : List queue_element) : 0 < getJobId buffer := by
  have := getJobIdFrom_ge buffer 1
  unfold getJobId
  omega

/-! ## The protocol invariant -/

theorem inv_initState (queue_size : Nat) : Inv queue_size (initState queue_size) := by
  simp [Inv, initState, initSemaphores]

theorem sem_wait_timeout_eq_some (c v : Nat) :
    sem_wait_timeout c = some v ↔ 0 < c ∧ v = c - 1 := by
  unfold sem_wait_timeout
  split
  · simp only [Option.some.injEq]; omega
  · simp only [false_iff, reduceCtorEq]; omega

theorem sem_wait_eq_some (c v : Nat) : sem_wait c = some v ↔ 0 < c ∧ v = c - 1 := by
  unfold sem_wait
  split
  · simp only [Option.some.injEq]; omega
  · simp only [false_iff, reduceCtorEq]; omega

theorem consumerRemove_eq_some (buffer rest : List queue_element) (job : queue_element) :
    consumerRemove buffer = some (job, rest) ↔ buffer = job :: rest := by
  cases buffer <;> simp [consumerRemove]

theorem producerInsert_length (buffer : List queue_element) (job_duration : Int) :
    (producerInsert buffer job_duration).length = buffer.length + 1 := by
  simp [producerInsert]

theorem inv_step (queue_size : Nat) (s t : State) (a : Action)
    (hinv : Inv queue_size s) (hstep : step s a = some t) : Inv queue_size t := by
  obtain ⟨h1, h2, h3⟩ := hinv
  cases a <;> simp only [step] at hstep
  case producerWaitSpace =>
    split at hstep
    · rename_i v hv
      rw [sem_wait_timeout_eq_some] at hv
      simp only [Option.some.injEq] at hstep
      subst hstep
      simp only [Inv]
      omega
    · simp at hstep
  case consumerWaitEmpty =>
    split at hstep
    · rename_i v hv
      rw [sem_wait_timeout_eq_some] at hv
      simp only [Option.some.injEq] at hstep
      subst hstep
      simp only [Inv]
      omega
    · simp at hstep
  case producerLock =>
    split at hstep
    · split at hstep
      · rename_i v hv
        rw [sem_wait_eq_some] at hv
        simp only [Option.some.injEq] at hstep
        subst hstep
        simp only [Inv]
        omega
      · simp at hstep
    · simp at hstep
  case consumerLock =>
    split at hstep
    · split at hstep
      · rename_i v hv
        rw [sem_wait_eq_some] at hv
        simp only [Option.some.injEq] at hstep
        subst hstep
        simp only [Inv]
        omega
      · simp at hstep
    · simp at hstep
  case producerInsert d =>
    split at hstep
    · simp only [Option.some.injEq] at hstep
      subst hstep
      simp only [Inv, producerInsert_length]
      omega
    · simp at hstep
  case consumerRemove =>
    split at hstep
    · split at hstep
      · rename_i job rest hr
        rw [consumerRemove_eq_some] at hr
        simp only [Option.some.injEq] at hstep
        subst hstep
        simp only [Inv]
        simp only [hr, List.length_cons] at h1 h2
        omega
      · simp at hstep
    · simp at hstep
  case threadExit =>
    simp only [Option.some.injEq] at hstep
    subst hstep
    exact ⟨h1, h2, h3⟩
  all_goals
    split at hstep
    · simp only [Option.some.injEq] at hstep
      subst hstep
      simp only [Inv, sem_signal]
      omega
    · simp at hstep

theorem inv_run (queue_size : Nat) (schedule : List Action) :
    ∀ s t : State, Inv queue_size s → run s schedule = some t → Inv queue_size t := by
  induction schedule with
  | nil =>
    intro s t hinv hrun
    simp only [run, Option.some.injEq] at hrun
    subst hrun
    exact hinv
  | cons a rest ih =>
    intro s t hinv hrun
    simp only [run] at hrun
    cases hs : step s a with
    | none => simp [hs] at hrun
    | some s1 =>
      simp only [hs, Option.some_bind] at hrun
      exact ih s1 t (inv_step queue_size s s1 a hinv hs) hrun

theorem inv_of_reachable (queue_size : Nat) (s : State) (h : Reachable queue_size s) :
    Inv queue_size s := by
  obtain ⟨schedule, hrun⟩ := h
  exact inv_run queue_size schedule _ s (inv_initState queue_size) hrun

/-- Mutual exclusion: in every reachable state at most one thread is inside a critical
region, which is why `getJobId` followed by `push_back`, and `front` followed by
`pop_front`, are single actions of the transition system. -/
theorem mutual_exclusion (queue_size : Nat) (s : State) (h : Reachable queue_size s) :
    s.prodCritical + s.prodInserted + s.consCritical + s.consRemoved ≤ 1 := by
  obtain ⟨_, _, h3⟩ := inv_of_reachable queue_size s h
  omega

/-! ## Claims on the semaphore protocol -/

/-- C3: in every state reachable in the protocol from the empty queue with
`EMPTY = 0` and `SPACE = queue_size`, for any number of producers and consumers and any
interleaving, the queue length is between 0 and `queue_size` inclusive. -/
theorem queue_length_within_capacity (queue_size : Nat) (s : State)
    (h : Reachable queue_size s) :
    0 ≤ s.buffer.length ∧ s.buffer.length ≤ queue_size := by
  obtain ⟨h1, _, _⟩ := inv_of_reachable queue_size s h
  omega

theorem queue_length_within_capacity_witness :
    Reachable 1 (State.mk [(1, 5)] (Semaphores.mk 0 0 0 1) 0 0 1 0 0 0 0 0) ∧
    (0 ≤ [((1 : Int), (5 : Int))].length ∧ [((1 : Int), (5 : Int))].length ≤ 1) :=
  ⟨⟨[.producerWaitSpace, .producerLock, .producerInsert 5], by decide⟩,
   queue_length_within_capacity 1 (State.mk [(1, 5)] (Semaphores.mk 0 0 0 1) 0 0 1 0 0 0 0 0)
     ⟨[.producerWaitSpace, .producerLock, .producerInsert 5], by decide⟩⟩

/-- C4: every reachable quiescent state (no producer between its `SPACE`
decrement and its `EMPTY` signal, no consumer between its `EMPTY` decrement and its
`SPACE` signal) has `EMPTY + SPACE = queue_size`, and `EMPTY` equals the queue length. -/
theorem quiescent_counts (queue_size : Nat) (s : State)
    (h : Reachable queue_size s) (hq : Quiescent s) :
    s.sem.empty + s.sem.space = queue_size ∧ s.sem.empty = s.buffer.length := by
  obtain ⟨h1, h2, _⟩ := inv_of_reachable queue_size s h
  obtain ⟨q1, q2, q3, q4, q5, q6, q7, q8⟩ := hq
  omega

theorem quiescent_counts_witness :
    Reachable 2 (State.mk [(1, 5)] (Semaphores.mk 1 1 1 1) 0 0 0 0 0 0 0 0) ∧
    Quiescent (State.mk [(1, 5)] (Semaphores.mk 1 1 1 1) 0 0 0 0 0 0 0 0) ∧
    (1 + 1 = 2 ∧ 1 = [((1 : Int), (5 : Int))].length) :=
  ⟨⟨[.producerWaitSpace, .producerLock, .producerInsert 5, .producerUnlock,
      .producerSignalEmpty], by decide⟩,
   by decide,
   quiescent_counts 2 (State.mk [(1, 5)] (Semaphores.mk 1 1 1 1) 0 0 0 0 0 0 0 0)
     ⟨[.producerWaitSpace, .producerLock, .producerInsert 5, .producerUnlock,
       .producerSignalEmpty], by decide⟩ (by decide)⟩

/-- C6: in every reachable state in which a consumer stands at its removal step
(it has decremented `EMPTY` and holds `MUTEX`), the queue is non-empty, so the removal
`buffer.front()` / `buffer.pop_front()` is defined: the empty-queue case of the removal
is unreachable in every interleaving. -/
theorem removal_never_on_empty (queue_size : Nat) (s : State)
    (h : Reachable queue_size s) (hc : 0 < s.consCritical) :
    s.buffer ≠ [] ∧ (step s Action.consumerRemove).isSome = true := by
  obtain ⟨_, h2, _⟩ := inv_of_reachable queue_size s h
  have hne : s.buffer ≠ [] := by
    intro hnil
    rw [hnil] at h2
    simp only [List.length_nil] at h2
    omega
  refine ⟨hne, ?_⟩
  cases hb : s.buffer with
  | nil => exact absurd hb hne
  | cons job rest => simp [step, hc, hb, consumerRemove]

theorem removal_never_on_empty_witness :
    Reachable 1 (State.mk [(1, 5)] (Semaphores.mk 0 0 0 1) 0 0 0 0 0 1 0 0) ∧
    0 < (State.mk [(1, 5)] (Semaphores.mk 0 0 0 1) 0 0 0 0 0 1 0 0).consCritical ∧
    ((State.mk [(1, 5)] (Semaphores.mk 0 0 0 1) 0 0 0 0 0 1 0 0).buffer ≠ [] ∧
     (step (State.mk [(1, 5)] (Semaphores.mk 0 0 0 1) 0 0 0 0 0 1 0 0)
        Action.consumerRemove).isSome = true) :=
  ⟨⟨[.producerWaitSpace, .producerLock, .producerInsert 5, .producerUnlock,
      .producerSignalEmpty, .consumerWaitEmpty, .consumerLock], by decide⟩,
   by decide,
   removal_never_on_empty 1 (State.mk [(1, 5)] (Semaphores.mk 0 0 0 1) 0 0 0 0 0 1 0 0)
     ⟨[.producerWaitSpace, .producerLock, .producerInsert 5, .producerUnlock,
       .producerSignalEmpty, .consumerWaitEmpty, .consumerLock], by decide⟩ (by decide)⟩

/-! ## Claims on the job-ID scan -/

/-- C10: on every queue whose job IDs are non-decreasing from front to back
`getJobId` returns the smallest positive integer that is not a job ID of the queue (1 on
the empty queue); and on every queue whatsoever each positive integer below the returned
value is the ID of some job in the queue, and the returned value is at most the queue
length plus 1. -/
theorem getJobId_smallest_on_sorted (buffer : List queue_element) :
    (List.Pairwise (fun a b => a ≤ b) (jobIds buffer) →
      IsSmallestUnusedId buffer (getJobId buffer)) ∧
    getJobId [] = 1 ∧
    (∀ k : Int, 0 < k → k < getJobId buffer → k ∈ jobIds buffer) ∧
    getJobId buffer ≤ buffer.length + 1 := by
  have hskip : ∀ k : Int, 0 < k → k < getJobId buffer → k ∈ jobIds buffer := by
    intro k hk hlt
    exact getJobIdFrom_skipped_mem buffer 1 k (by omega) hlt
  refine ⟨?_, rfl, hskip, getJobId_le_length buffer⟩
  intro hsorted
  refine ⟨getJobId_pos buffer, getJobIdFrom_not_mem_of_sorted buffer 1 hsorted, ?_⟩
  intro m hm hnot
  by_contra hlt
  exact hnot (hskip m hm (by omega))

theorem getJobId_smallest_on_sorted_witness :
    List.Pairwise (fun a b => a ≤ b) (jobIds [(1, 4), (1, 9), (2, 3), (4, 1)]) ∧
    IsSmallestUnusedId [(1, 4), (1, 9), (2, 3), (4, 1)]
      (getJobId [(1, 4), (1, 9), (2, 3), (4, 1)]) :=
  ⟨by decide,
   (getJobId_smallest_on_sorted [(1, 4), (1, 9), (2, 3), (4, 1)]).1 (by decide)⟩

/-- C1, evaluated on the code: with the jobs `(2, 5), (1, 5)` in the queue, in this
order, `getJobId` returns 2, which is the ID of the job at the front. -/
theorem getJobId_returns_present_id :
    getJobId [(2, 5), (1, 5)] = 2 ∧
    getJobId [(2, 5), (1, 5)] ∈ jobIds [(2, 5), (1, 5)] := by
  decide

/-- C7, evaluated on the code: with the jobs `(2, 4), (3, 7), (1, 2)` in the queue,
in this order, the smallest positive integer that is no job ID is 4, and `getJobId`
returns 2. -/
theorem getJobId_not_smallest_unused :
    getJobId [(2, 4), (3, 7), (1, 2)] = 2 ∧
    IsSmallestUnusedId [(2, 4), (3, 7), (1, 2)] 4 ∧
    ¬ IsSmallestUnusedId [(2, 4), (3, 7), (1, 2)] (getJobId [(2, 4), (3, 7), (1, 2)]) := by
  refine ⟨by decide, ⟨by decide, by decide, ?_⟩, ?_⟩
  · intro m hm hnot
    simp only [jobIds, List.map_cons, List.map_nil, List.mem_cons, List.mem_singleton,
      List.not_mem_nil, or_false, not_or] at hnot
    omega
  · intro h
    exact h.2.1 (by decide)

/-- C2, evaluated on the code: for every capacity of at least 3, two insertions, one
removal and two more insertions, starting from the empty queue, keep the length within
the capacity and end in a queue holding two jobs with ID 2. -/
theorem duplicate_ids_reachable (capacity : Nat) (h : 3 ≤ capacity) :
    applyBounded capacity []
        [.insert 5, .insert 6, .remove, .insert 7, .insert 8]
      = some [(2, 6), (1, 7), (2, 8)] ∧
    ¬ (jobIds [(2, 6), (1, 7), (2, 8)]).Nodup := by
  refine ⟨?_, by decide⟩
  have h0 : 0 < capacity := by omega
  have h1 : 1 < capacity := by omega
  have h2 : 2 < capacity := by omega
  simp [applyBounded, producerInsert, consumerRemove, getJobId, getJobIdFrom, getJobIdStep,
    h0, h1, h2]

/-- The same run as a schedule of the protocol with capacity 3: one producer inserts
twice, a consumer removes once, the producer inserts twice more, every semaphore
operation included; the reached state holds two jobs with ID 2. -/
theorem duplicate_ids_in_protocol :
    Reachable 3 (State.mk [(2, 6), (1, 7), (2, 8)] (Semaphores.mk 1 3 0 1) 0 0 0 0 0 0 0 0) ∧
    ¬ (jobIds [(2, 6), (1, 7), (2, 8)]).Nodup :=
  ⟨⟨[.producerWaitSpace, .producerLock, .producerInsert 5, .producerUnlock,
      .producerSignalEmpty,
      .producerWaitSpace, .producerLock, .producerInsert 6, .producerUnlock,
      .producerSignalEmpty,
      .consumerWaitEmpty, .consumerLock, .consumerRemove, .consumerUnlock,
      .consumerSignalSpace,
      .producerWaitSpace, .producerLock, .producerInsert 7, .producerUnlock,
      .producerSignalEmpty,
      .producerWaitSpace, .producerLock, .producerInsert 8, .producerUnlock,
      .producerSignalEmpty], by decide⟩,
   by decide⟩

theorem duplicate_ids_reachable_witness :
    3 ≤ 3 ∧
    applyBounded 3 [] [.insert 5, .insert 6, .remove, .insert 7, .insert 8]
      = some [(2, 6), (1, 7), (2, 8)] ∧
    ¬ (jobIds [(2, 6), (1, 7), (2, 8)]).Nodup :=
  ⟨by decide, duplicate_ids_reachable 3 (by decide)⟩

/-! ## Claims on the queue operations -/

theorem applyOp_history (base : List queue_element) (r r1 : QueueRun) (op : QueueOp)
    (hop : applyOp r op = some r1)
    (hr : r.removed ++ r.buffer = base ++ r.inserted) :
    r1.removed ++ r1.buffer = base ++ r1.inserted := by
  cases op with
  | insert job_duration =>
    simp only [applyOp, Option.some.injEq] at hop
    subst hop
    simp only [producerInsert]
    rw [← List.append_assoc, hr, List.append_assoc]
  | remove =>
    simp only [applyOp] at hop
    split at hop
    · rename_i job rest hrem
      rw [consumerRemove_eq_some] at hrem
      simp only [Option.some.injEq] at hop
      subst hop
      simp only [List.append_assoc, List.singleton_append]
      rw [← hrem, hr]
    · simp at hop

theorem applyOps_history (base : List queue_element) (ops : List QueueOp) :
    ∀ r r1 : QueueRun, applyOps r ops = some r1 →
      r.removed ++ r.buffer = base ++ r.inserted →
      r1.removed ++ r1.buffer = base ++ r1.inserted := by
  induction ops with
  | nil =>
    intro r r1 hrun hr
    simp only [applyOps, Option.some.injEq] at hrun
    subst hrun
    exact hr
  | cons op rest ih =>
    intro r r1 hrun hr
    simp only [applyOps] at hrun
    cases hop : applyOp r op with
    | none => simp [hop] at hrun
    | some r2 =>
      simp only [hop, Option.some_bind] at hrun
      exact ih r2 r1 hrun (applyOp_history base r r2 op hop hr)

/-- C5: the queue is FIFO and content-preserving.  For every initial queue `q` and
every sequence of insertions and removals that never removes from an empty queue, the
jobs returned by the removals followed by the jobs still queued are exactly `q` followed
by the inserted `(id, duration)` pairs in insertion order; so the returned jobs are a
prefix of that sequence, unmodified, and if `A` was inserted before `B` (as the `i`-th
and `j`-th insertion, `i < j`) and `B` has been returned, then `A` was returned, at an
earlier position. -/
theorem fifo_content_preserving (q : List queue_element) (ops : List QueueOp) (r : QueueRun)
    (hrun : applyOps (startRun q) ops = some r) :
    r.removed ++ r.buffer = q ++ r.inserted ∧
    r.removed <+: q ++ r.inserted ∧
    (∀ i j : Nat, i < j → j < r.inserted.length → q.length + j < r.removed.length →
      r.removed[q.length + i]? = r.inserted[i]? ∧
      r.removed[q.length + j]? = r.inserted[j]? ∧
      q.length + i < q.length + j) := by
  have hist : r.removed ++ r.buffer = q ++ r.inserted :=
    applyOps_history q ops (startRun q) r hrun (by simp [startRun])
  have hpre : r.removed <+: q ++ r.inserted := ⟨r.buffer, hist⟩
  have hget : ∀ k : Nat, q.length + k < r.removed.length →
      r.removed[q.length + k]? = r.inserted[k]? := by
    intro k hk
    have h1 : (r.removed ++ r.buffer)[q.length + k]? = r.removed[q.length + k]? :=
      List.getElem?_append_left hk
    have h2 : (q ++ r.inserted)[q.length + k]? = r.inserted[k]? := by
      rw [List.getElem?_append_right (by omega)]
      congr 1
      omega
    rw [← h1, hist, h2]
  refine ⟨hist, hpre, ?_⟩
  intro i j hij _ hj
  exact ⟨hget i (by omega), hget j hj, by omega⟩

theorem fifo_content_preserving_witness :
    applyOps (startRun [(7, 3)]) [.insert 4, .insert 6, .remove, .remove, .remove]
      = some (QueueRun.mk [] [(1, 4), (2, 6)] [(7, 3), (1, 4), (2, 6)]) ∧
    ([(7, 3), (1, 4), (2, 6)] ++ [] = [(7, 3)] ++ [((1 : Int), (4 : Int)), (2, 6)] ∧
     [((7 : Int), (3 : Int)), (1, 4), (2, 6)] <+: [(7, 3)] ++ [(1, 4), (2, 6)] ∧
     (∀ i j : Nat, i < j → j < [((1 : Int), (4 : Int)), (2, 6)].length →
        [((7 : Int), (3 : Int))].length + j < [((7 : Int), (3 : Int)), (1, 4), (2, 6)].length →
        [((7 : Int), (3 : Int)), (1, 4), (2, 6)][[((7 : Int), (3 : Int))].length + i]?
          = [((1 : Int), (4 : Int)), (2, 6)][i]? ∧
        [((7 : Int), (3 : Int)), (1, 4), (2, 6)][[((7 : Int), (3 : Int))].length + j]?
          = [((1 : Int), (4 : Int)), (2, 6)][j]? ∧
        [((7 : Int), (3 : Int))].length + i < [((7 : Int), (3 : Int))].length + j)) :=
  ⟨by decide,
   fifo_content_preserving [(7, 3)] [.insert 4, .insert 6, .remove, .remove, .remove]
     (QueueRun.mk [] [(1, 4), (2, 6)] [(7, 3), (1, 4), (2, 6)]) (by decide)⟩

/-- A trace of `n` completed iterations followed by `tail` has `n` insertions more
than `tail`. -/
theorem insertCount_iterations (rand : Nat → Int) (n : Nat) :
    ∀ (i : Nat) (tail : List ProducerEvent),
      insertCount ((List.range' i n).flatMap
          (fun k => [ProducerEvent.insert (rand k), ProducerEvent.signalEmpty]) ++ tail)
        = n + insertCount tail := by
  induction n with
  | zero => intro i tail; simp
  | succ m ih =>
    intro i tail
    have h := ih (i + 1) tail
    simp only [insertCount] at h ⊢
    simp only [List.range'_succ, List.flatMap_cons, List.cons_append, List.nil_append,
      List.countP_cons, h]
    simp
    omega

theorem signalCount_iterations (rand : Nat → Int) (n : Nat) :
    ∀ (i : Nat) (tail : List ProducerEvent),
      signalCount ((List.range' i n).flatMap
          (fun k => [ProducerEvent.insert (rand k), ProducerEvent.signalEmpty]) ++ tail)
        = n + signalCount tail := by
  induction n with
  | zero => intro i tail; simp
  | succ m ih =>
    intro i tail
    have h := ih (i + 1) tail
    simp only [signalCount] at h ⊢
    simp only [List.range'_succ, List.flatMap_cons, List.cons_append, List.nil_append,
      List.countP_cons, h]
    simp
    omega

theorem producerLoop_from (wait : Nat → Bool) (rand : Nat → Int) (N : Nat) :
    ∀ (fuel i : Nat) (job_duration : Int), N < fuel →
      ∃ n : Nat,
        producerLoop wait rand fuel i (N : Int) job_duration
          = some ((List.range' i n).flatMap
              (fun k => [ProducerEvent.insert (rand k), ProducerEvent.signalEmpty])
              ++ [if n = N then ProducerEvent.noMoreJobs else ProducerEvent.timedOut]) ∧
        n ≤ N ∧ (∀ k : Nat, k < n → wait (i + k) = true) ∧ (n < N → wait (i + n) = false) := by
  induction N with
  | zero =>
    intro fuel i job_duration hfuel
    obtain ⟨f, rfl⟩ : ∃ f, fuel = f + 1 := ⟨fuel - 1, by omega⟩
    refine ⟨0, ?_, le_rfl, ?_, ?_⟩
    · simp [producerLoop]
    · intro k hk; omega
    · intro h; omega
  | succ M ih =>
    intro fuel i job_duration hfuel
    obtain ⟨f, rfl⟩ : ∃ f, fuel = f + 1 := ⟨fuel - 1, by omega⟩
    have hpos : (0 : Int) < ((M + 1 : Nat) : Int) := by omega
    have hpred : ((M + 1 : Nat) : Int) - 1 = (M : Int) := by omega
    by_cases hw : wait i = true
    · obtain ⟨n, hrun, hle, hacq, hto⟩ := ih f (i + 1) (rand i) (by omega)
      refine ⟨n + 1, ?_, by omega, ?_, ?_⟩
      · simp only [producerLoop, hpos, if_true, hw, hpred, hrun, Option.map_some']
        simp only [List.range'_succ, List.flatMap_cons, List.cons_append, List.nil_append,
          Nat.add_right_cancel_iff]
      · intro k hk
        cases k with
        | zero => simpa using hw
        | succ j =>
          have := hacq j (by omega)
          rw [← this]
          congr 1
          omega
      · intro h
        have := hto (by omega)
        rw [← this]
        congr 1
        omega
    · refine ⟨0, ?_, by omega, ?_, ?_⟩
      · simp [producerLoop, hpos, hw]
      · intro k hk; omega
      · intro _
        simpa using hw

/-- C9: for every budget `N ≥ 0` and every sequence `wait` of outcomes of the
`SPACE` waits, the producer loop exits (enough fuel gives a trace) after inserting exactly
`n` jobs, where `n ≤ N`, the first `n` waits were acquired and, when `n < N`, the next
one timed out, that is `n = min (N, k)` for `k` the number of acquired outcomes before
the first timed-out one.  It signals `EMPTY` once per inserted job, right after the
insertion; it exits via "no more jobs" exactly when it has inserted `N` jobs and via the
timeout otherwise; the exit is the last event, so nothing is inserted or signalled after
the timed-out wait. -/
theorem producerLoop_behaviour (wait : Nat → Bool) (rand : Nat → Int) (N fuel : Nat)
    (job_duration : Int) (hfuel : N < fuel) :
    ∃ (n : Nat) (trace : List ProducerEvent),
      producerLoop wait rand fuel 0 (N : Int) job_duration = some trace ∧
      n ≤ N ∧ (∀ k : Nat, k < n → wait k = true) ∧ (n < N → wait n = false) ∧
      insertCount trace = n ∧ signalCount trace = n ∧
      trace = (List.range n).flatMap
          (fun k => [ProducerEvent.insert (rand k), ProducerEvent.signalEmpty])
        ++ [if n = N then ProducerEvent.noMoreJobs else ProducerEvent.timedOut] ∧
      (trace.getLast? = some ProducerEvent.noMoreJobs ↔ n = N) ∧
      (trace.getLast? = some ProducerEvent.timedOut ↔ n < N) := by
  obtain ⟨n, hrun, hle, hacq, hto⟩ := producerLoop_from wait rand N fuel 0 job_duration hfuel
  refine ⟨n, _, hrun, hle, ?_, ?_, ?_, ?_, ?_, ?_, ?_⟩
  · intro k hk
    simpa using hacq k hk
  · intro h
    simpa using hto h
  · rw [insertCount_iterations]
    split <;> simp [insertCount]
  · rw [signalCount_iterations]
    split <;> simp [signalCount]
  · rw [List.range_eq_range']
  · rw [List.getLast?_append]
    by_cases h : n = N
    · simp [h]
    · simp [h]
  · rw [List.getLast?_append]
    by_cases h : n = N
    · simp [h]
    · simp only [h, if_false, List.getLast?_singleton, Option.or_some, true_iff]
      omega

theorem producerLoop_behaviour_witness :
    3 < 4 ∧
    producerLoop (fun i => decide (i < 2)) (fun i => (i : Int) + 1) 4 0 ((3 : Nat) : Int) 0
      = some [.insert 1, .signalEmpty, .insert 2, .signalEmpty, .timedOut] ∧
    ∃ (n : Nat) (trace : List ProducerEvent),
      producerLoop (fun i => decide (i < 2)) (fun i => (i : Int) + 1) 4 0 ((3 : Nat) : Int) 0
        = some trace ∧
      n ≤ 3 ∧ (∀ k : Nat, k < n → (fun i => decide (i < 2)) k = true) ∧
      (n < 3 → (fun i => decide (i < 2)) n = false) ∧
      insertCount trace = n ∧ signalCount trace = n ∧
      trace = (List.range n).flatMap
          (fun k => [ProducerEvent.insert ((fun i => (i : Int) + 1) k),
            ProducerEvent.signalEmpty])
        ++ [if n = 3 then ProducerEvent.noMoreJobs else ProducerEvent.timedOut] ∧
      (trace.getLast? = some ProducerEvent.noMoreJobs ↔ n = 3) ∧
      (trace.getLast? = some ProducerEvent.timedOut ↔ n < 3) :=
  ⟨by decide, by decide,
   producerLoop_behaviour (fun i => decide (i < 2)) (fun i => (i : Int) + 1) 3 4 0
     (by decide)⟩

end ProducerConsumer
